import Mathlib

/-!
Verification of the DermaCheck response-parsing / risk-classification pipeline.

The TypeScript source is embedded shallowly over `List Char` (a JS string is
modelled as its list of Unicode scalar values).  Case-insensitive operations
use `Char.toLower`, which agrees with JavaScript `toLowerCase` on ASCII; all
labels, markers and keywords in the source are ASCII, so the model is faithful
on the ASCII fragment the code manipulates.
-/

namespace DermaCheck

/-- JS whitespace (the ASCII part of the regex class \s and of String.trim). -/
def isWS (c : Char) : Bool :=
  c = ' ' || c = '\t' || c = '\n' || c = '\r' || c = '\x0b' || c = '\x0c'

/-- Lowercasing of a JS string, character by character (ASCII model). -/
def lowerL (l : List Char) : List Char := l.map Char.toLower

/-- Model of JS String.prototype.trim. -/
def trimL (l : List Char) : List Char :=
  ((l.dropWhile isWS).reverse.dropWhile isWS).reverse

/-- Model of JS String.prototype.split with a single-character separator. -/
def splitOnChar (sep : Char) (l : List Char) : List (List Char) :=
  l.foldr
    (fun c acc =>
      match acc with
      | [] => [[c]]
      | cur :: rest => if c = sep then [] :: cur :: rest else (c :: cur) :: rest)
    [[]]

/-- Model of JS String.prototype.includes: `needle` occurs somewhere in `hay`. -/
def containsSub : List Char → List Char → Bool
  | n, [] => n.isEmpty
  | n, c :: rest => n.isPrefixOf (c :: rest) || containsSub n rest

/-- Occurrence of `n` as a contiguous segment of `h`, as a proposition. -/
def OccursIn (n h : List Char) : Prop := ∃ p s, h = p ++ n ++ s

/-- Case-insensitive "the pattern (given lowercase) begins at the head of l". -/
def isPrefixCI (pat l : List Char) : Bool := pat.isPrefixOf (lowerL l)

/-- Separator class of the parsing regexes: [:\-\.]. -/
def isSep (c : Char) : Bool := c = ':' || c = '-' || c = '.'

/-- JS line terminators (the characters the regex `.` does not match). -/
def isLineTerm (c : Char) : Bool :=
  c = '\n' || c = '\r' || c = '\u2028' || c = '\u2029'

/-- Capture of a trailing `(.*)` group: everything up to a line terminator. -/
def captureRest (l : List Char) : List Char := l.takeWhile (fun c => !isLineTerm c)

/-- Model of `line.match(/[:\-\.]\s*(.*)/)`: the capture group of the first
match, scanning left to right for the first separator character. -/
def extractAfterSep : List Char → Option (List Char)
  | [] => none
  | c :: rest =>
    if isSep c then some (captureRest (rest.dropWhile isWS)) else extractAfterSep rest

/-- Model of `line.match(/[:\-\.]\s*(\d+)/)`: the first separator that is
followed (after whitespace) by a digit; captures the maximal digit run. -/
def extractDigits : List Char → Option (List Char)
  | [] => none
  | c :: rest =>
    if isSep c then
      match rest.dropWhile isWS with
      | d :: ds =>
        if d.isDigit then some ((d :: ds).takeWhile Char.isDigit) else extractDigits rest
      | [] => extractDigits rest
    else extractDigits rest

/-- The block delimiters of the structured ABCDE block, lowercase for
case-insensitive matching. -/
def startMarker : List Char := "~abcde_start~".toList

def endMarker : List Char := "~abcde_end~".toList

/-- Original-case literals, used to build inputs in theorem statements. -/
def startLit : List Char := "~ABCDE_START~".toList

def endLit : List Char := "~ABCDE_END~".toList

/-- Scan for the first (case-insensitive) occurrence of the end marker;
returns the content before it and the text after it. -/
def splitAtEnd : List Char → Option (List Char × List Char)
  | [] => none
  | c :: rest =>
    if isPrefixCI endMarker (c :: rest) then some ([], (c :: rest).drop 11)
    else
      match splitAtEnd rest with
      | some (b, a) => some (c :: b, a)
      | none => none

/-- Model of `text.match(/~ABCDE_START~([\s\S]*?)~ABCDE_END~/i)` together with
`text.replace(match[0], '')`: the leftmost position carrying the start marker
with an end marker somewhere after it wins, and the inner capture is the
shortest (up to the first end marker).  Returns (before, inner, after). -/
def findBlock : List Char → Option (List Char × List Char × List Char)
  | [] => none
  | c :: rest =>
    if isPrefixCI startMarker (c :: rest) then
      match splitAtEnd ((c :: rest).drop 13) with
      | some (inner, post) => some ([], inner, post)
      | none =>
        match findBlock rest with
        | some (p, i, q) => some (c :: p, i, q)
        | none => none
    else
      match findBlock rest with
      | some (p, i, q) => some (c :: p, i, q)
      | none => none

/-- The three finding statuses of the UI. -/
inductive Status
  | Benign
  | Suspicious
  | Unknown
deriving DecidableEq

/-- One parsed ABCDE finding (interface ABCDEItem of the source). -/
structure ABCDEItem where
  letter : List Char
  title : List Char
  status : Status
  summary : List Char
deriving DecidableEq

/-- Accumulator of the line-classification loop of the parse useMemo. -/
structure ParseState where
  items : List ABCDEItem
  confidence : List Char
  isic : List Char
  hamPred : List Char
  hamConf : List Char
  glasgow : List Char
  risk : List Char
  features : List (List Char)
deriving DecidableEq

/-- The "not available" sentinel of the display parser. -/
def notAvailable : List Char := "N/A".toList

def initState : ParseState :=
  ⟨[], notAvailable, notAvailable, notAvailable, notAvailable, notAvailable,
    notAvailable, []⟩

/-- letterMap of the source. -/
def letterMap (c : Char) : Option (List Char) :=
  if c = 'A' then some ("Asymmetry".toList)
  else if c = 'B' then some ("Border".toList)
  else if c = 'C' then some ("Color".toList)
  else if c = 'D' then some ("Diameter".toList)
  else if c = 'E' then some ("Evolving".toList)
  else none

/-- After the criterion key: `\**[:\-\.]\s*(.*)`. -/
def afterKey (r : List Char) : Option (List Char) :=
  match r.dropWhile (fun c => c = '*') with
  | s :: r3 => if isSep s then some (captureRest (r3.dropWhile isWS)) else none
  | [] => none

/-- Model of `cleanLine.match(/^\**([ABCDE]|Moles)\**[:\-\.]\s*(.*)/i)`:
returns the upper-cased key (`lineMatch[1].toUpperCase()`) and the raw
content capture. -/
def criterionMatch (l : List Char) : Option (List Char × List Char) :=
  match l.dropWhile (fun c => c = '*') with
  | [] => none
  | c :: rest =>
    if c.toLower = 'a' || c.toLower = 'b' || c.toLower = 'c' || c.toLower = 'd'
        || c.toLower = 'e' then
      match afterKey rest with
      | some content => some ([c.toUpper], content)
      | none => none
    else if isPrefixCI ("moles".toList) (c :: rest) then
      match afterKey ((c :: rest).drop 5) with
      | some content => some ("MOLES".toList, content)
      | none => none
    else none

/-- Status derivation: case-insensitive substring search for "suspicious",
then "benign", defaulting to Unknown. -/
def deriveStatus (content : List Char) : Status :=
  if containsSub ("suspicious".toList) (lowerL content) then Status.Suspicious
  else if containsSub ("benign".toList) (lowerL content) then Status.Benign
  else Status.Unknown

def statusWord : Status → List Char
  | Status.Benign => "Benign".toList
  | Status.Suspicious => "Suspicious".toList
  | Status.Unknown => "Unknown".toList

/-- Global replace of `\[(Benign|Suspicious|Unknown)\]` (case-insensitive).
Each step consumes at least one character, so the list length bounds the
number of steps; the explicit fuel keeps the recursion structural. -/
def stripBracketTokF : Nat → List Char → List Char
  | 0, l => l
  | _, [] => []
  | fuel + 1, c :: rest =>
    if isPrefixCI ("[benign]".toList) (c :: rest) then
      stripBracketTokF fuel ((c :: rest).drop 8)
    else if isPrefixCI ("[suspicious]".toList) (c :: rest) then
      stripBracketTokF fuel ((c :: rest).drop 12)
    else if isPrefixCI ("[unknown]".toList) (c :: rest) then
      stripBracketTokF fuel ((c :: rest).drop 9)
    else c :: stripBracketTokF fuel rest

def stripBracketTok (l : List Char) : List Char := stripBracketTokF l.length l

/-- One anchored replace of `^(Benign|Suspicious|Unknown)\s*[:\-\.]`. -/
def stripLeadingStatus (l : List Char) : List Char :=
  let tryTok : List Char → Option (List Char) := fun tok =>
    if isPrefixCI tok l then
      match (l.drop tok.length).dropWhile isWS with
      | s :: r2 => if isSep s then some r2 else none
      | [] => none
    else none
  match tryTok ("benign".toList) with
  | some r => r
  | none =>
    match tryTok ("suspicious".toList) with
    | some r => r
    | none =>
      match tryTok ("unknown".toList) with
      | some r => r
      | none => l

/-- One anchored replace of `^[\s:\-\.]+`. -/
def stripLeadingPunct (l : List Char) : List Char :=
  l.dropWhile (fun c => isWS c || isSep c)

/-- Summary derivation with its empty-remainder fallback. -/
def deriveSummary (st : Status) (content : List Char) : List Char :=
  let s := trimL (stripLeadingPunct (stripLeadingStatus (stripBracketTok content)))
  if s.isEmpty then
    match st with
    | Status.Unknown => content
    | st' => statusWord st'
  else s

/-- Dermatoscopic feature list: split on commas, trim, drop empties. -/
def splitCommaClean (l : List Char) : List (List Char) :=
  ((splitOnChar ',' l).map trimL).filter (fun s => !s.isEmpty)

/-- One iteration of the `lines.forEach` body of the parse useMemo of the
result display (src/unnamed/part_003, lines 372-456). -/
def processLine (st : ParseState) (line : List Char) : ParseState :=
  if (trimL line).isEmpty then st
  else if List.isPrefixOf ("confidence score".toList) (lowerL (trimL line)) then
    match extractAfterSep (trimL line) with
    | some v => { st with confidence := trimL v }
    | none => st
  else if containsSub ("isic risk score".toList) (lowerL (trimL line))
      || containsSub ("isic score".toList) (lowerL (trimL line)) then
    match extractDigits (trimL line) with
    | some v => { st with isic := trimL v }
    | none => st
  else if containsSub ("glasgow score".toList) (lowerL (trimL line)) then
    match extractDigits (trimL line) with
    | some v => { st with glasgow := trimL v }
    | none => st
  else if containsSub ("risk level".toList) (lowerL (trimL line)) then
    match extractAfterSep (trimL line) with
    | some v => { st with risk := trimL v }
    | none => st
  else if containsSub ("ham10000 prediction".toList) (lowerL (trimL line)) then
    match extractAfterSep (trimL line) with
    | some v => { st with hamPred := trimL v }
    | none => st
  else if containsSub ("ham10000 confidence".toList) (lowerL (trimL line)) then
    match extractAfterSep (trimL line) with
    | some v => { st with hamConf := trimL v }
    | none => st
  else if containsSub ("dermatoscopic features".toList) (lowerL (trimL line)) then
    match extractAfterSep (trimL line) with
    | some v => { st with features := splitCommaClean v }
    | none => st
  else
    match criterionMatch (trimL line) with
    | some (key, content) =>
      let lt : Option (List Char × List Char) :=
        if key = "MOLES".toList then some ("M".toList, "Moles".toList)
        else
          match key with
          | [k] =>
            match letterMap k with
            | some t => some ([k], t)
            | none => none
          | _ => none
      match lt with
      | some (letter, title) =>
        let status := deriveStatus content
        { st with items := st.items ++ [⟨letter, title, status, deriveSummary status content⟩] }
      | none => st
    | none => st

/-- Folding the classification loop over the lines of the block content. -/
def parseLines (block : List Char) : ParseState :=
  (splitOnChar '\n' block).foldl processLine initState

/-- Result of the parse useMemo. -/
structure ParseResult where
  abcdeData : List ABCDEItem
  cleanText : List Char
  confidenceScore : List Char
  isicScore : List Char
  hamPrediction : List Char
  hamConfidence : List Char
  glasgowScore : List Char
  riskLevel : List Char
  dermFeatures : List (List Char)
deriving DecidableEq

def mkParseResult (st : ParseState) (body : List Char) : ParseResult :=
  ⟨st.items, body, st.confidence, st.isic, st.hamPred, st.hamConf, st.glasgow,
    st.risk, st.features⟩

/-- The whole parse useMemo of the result display: locate the delimited block,
remove it from the text, and classify its lines.  When the block is absent the
entire original text (without trimming) becomes cleanText and every metric
stays at its sentinel. -/
def parseResponse (text : List Char) : ParseResult :=
  match findBlock text with
  | none => mkParseResult initState text
  | some (pre, inner, post) =>
    mkParseResult (parseLines (trimL inner)) (trimL (pre ++ post))

/-- Model of the some-check over findings: true when any parsed item has
status Suspicious. -/
def hasSuspiciousItems (r : ParseResult) : Bool :=
  r.abcdeData.any (fun i => i.status = Status.Suspicious)

/-- The risk classifier of src/unnamed/part_003, lines 482-486. -/
def isGeneralSuspicious (r : ParseResult) : Bool :=
  hasSuspiciousItems r
    || containsSub ("consult a doctor".toList) (lowerL r.cleanText)
    || containsSub ("melanoma".toList) (lowerL r.cleanText)
    || containsSub ("carcinoma".toList) (lowerL r.cleanText)

/-! The metrics parser of src/services/storageService.ts (parseMetrics). -/

/-- Generic scanner for an unanchored regex of the form `label<tail>` with the
case-insensitive flag: at each position, if the label matches there and the
continuation `k` matches right after it, the match succeeds; otherwise the
scan resumes one character further. -/
def scanFor (label : List Char) (k : List Char → Option (List Char)) :
    List Char → Option (List Char)
  | [] => none
  | c :: rest =>
    if isPrefixCI label (c :: rest) then
      match k ((c :: rest).drop label.length) with
      | some v => some v
      | none => scanFor label k rest
    else scanFor label k rest

/-- Continuation `[:\-\.]\s*(\d+)` right after a label. -/
def matchSepDigits : List Char → Option (List Char)
  | [] => none
  | s :: r =>
    if isSep s then
      match r.dropWhile isWS with
      | d :: ds => if d.isDigit then some ((d :: ds).takeWhile Char.isDigit) else none
      | [] => none
    else none

/-- Continuation `[:\-\.]\s*(\d+)%`: the digit run must be followed by '%'. -/
def matchSepDigitsPct : List Char → Option (List Char)
  | [] => none
  | s :: r =>
    if isSep s then
      match r.dropWhile isWS with
      | d :: ds =>
        if d.isDigit then
          match ((d :: ds).dropWhile Char.isDigit) with
          | p :: _ => if p = '%' then some ((d :: ds).takeWhile Char.isDigit) else none
          | [] => none
        else none
      | [] => none
    else none

/-- Continuation `[:\-\.]\s*(High|Medium|Low)` (case-insensitive); the capture
keeps the original casing of the input. -/
def matchSepRisk : List Char → Option (List Char)
  | [] => none
  | s :: r =>
    if isSep s then
      let r2 := r.dropWhile isWS
      if isPrefixCI ("high".toList) r2 then some (r2.take 4)
      else if isPrefixCI ("medium".toList) r2 then some (r2.take 6)
      else if isPrefixCI ("low".toList) r2 then some (r2.take 3)
      else none
    else none

/-- parseInt on a run of decimal digits. -/
def digitsToNat (ds : List Char) : Nat :=
  ds.foldl (fun a c => a * 10 + (c.toNat - '0'.toNat)) 0

/-- The metrics record built by storageService.parseMetrics. -/
structure StoredMetrics where
  isicScore : Nat
  glasgowScore : Nat
  confidence : Nat
  riskLevel : List Char
deriving DecidableEq

/-- parseMetrics of src/services/storageService.ts, lines 11-30: each field
starts at an in-range default (0 / 'Low') and is overwritten only when its
regex matches. -/
def parseMetrics (text : List Char) : StoredMetrics :=
  let isic :=
    match scanFor ("isic risk score".toList) matchSepDigits text with
    | some ds => digitsToNat ds
    | none => 0
  let glasgow :=
    match scanFor ("glasgow score".toList) matchSepDigits text with
    | some ds => digitsToNat ds
    | none => 0
  let conf :=
    match scanFor ("confidence score".toList) matchSepDigitsPct text with
    | some ds => digitsToNat ds
    | none => 0
  let risk :=
    match scanFor ("risk level".toList) matchSepRisk text with
    | some r => r
    | none => "Low".toList
  ⟨isic, glasgow, conf, risk⟩

/-! History retention of src/App.tsx (saveToHistory, handleLimitChange, the
mount-time load effect, deleteHistoryItem). -/

/-- A history record; only the fields retention reasons about are kept. -/
structure HistoryEntry where
  id : Nat
  timestamp : Nat
deriving DecidableEq

/-- The React state the history logic manipulates. -/
structure AppHistState where
  history : List HistoryEntry
  limit : Nat
deriving DecidableEq

/-- saveToHistory (App.tsx 112-138): prepend the new item and
`.slice(0, historyLimit)`. -/
def saveToHistory (st : AppHistState) (item : HistoryEntry) : AppHistState :=
  { st with history := (item :: st.history).take st.limit }

/-- handleLimitChange (App.tsx 140-152): adopt the new limit and trim the
existing history only when it exceeds it. -/
def handleLimitChange (st : AppHistState) (n : Nat) : AppHistState :=
  { history := if st.history.length > n then st.history.take n else st.history
    limit := n }

/-- The mount effect (App.tsx 33-60): read the stored limit (default 10), then
load the stored history, enforcing the limit when exceeded. -/
def loadFromStorage (stored : List HistoryEntry) (storedLimit : Option Nat) :
    AppHistState :=
  let lim := storedLimit.getD 10
  { history := if stored.length > lim then stored.take lim else stored
    limit := lim }

/-- deleteHistoryItem (App.tsx 159-164). -/
def deleteHistoryItem (st : AppHistState) (i : Nat) : AppHistState :=
  { st with history := st.history.filter (fun x => x.id ≠ i) }

/-- The history-mutating operations. -/
inductive HistOp
  | save (item : HistoryEntry)
  | limitChange (n : Nat)
  | load (stored : List HistoryEntry) (storedLimit : Option Nat)
  | delete (i : Nat)

def applyHistOp (st : AppHistState) : HistOp → AppHistState
  | HistOp.save item => saveToHistory st item
  | HistOp.limitChange n => handleLimitChange st n
  | HistOp.load stored lim => loadFromStorage stored lim
  | HistOp.delete i => deleteHistoryItem st i

/-- The initial React state: empty history, default limit 10. -/
def initialAppState : AppHistState := ⟨[], 10⟩

/-! The share boundary (handleCopyLink in src/unnamed/part_003 and the
share-parameter decode effect in src/App.tsx).  The repository serializes the
AnalysisResult with JSON.stringify, compresses it with the third-party
lz-string library, and on load decompresses and JSON.parses it back. -/

/-- GroundingChunk.web of src/types.ts. -/
structure WebSource where
  uri : List Char
  title : List Char
deriving DecidableEq

structure GroundingChunk where
  web : Option WebSource
deriving DecidableEq

/-- AnalysisResult of src/types.ts: the raw response text plus the optional
citation list. -/
structure AnalysisResult where
  text : List Char
  groundingChunks : Option (List GroundingChunk)
deriving DecidableEq

/-- Lowercase hexadecimal digit. -/
def hexDigit (n : Nat) : Char :=
  if n < 10 then Char.ofNat ('0'.toNat + n) else Char.ofNat ('a'.toNat + (n - 10))

/-- Model of the escaping JSON.stringify applies inside string literals. -/
def escapeChar (c : Char) : List Char :=
  if c = '"' then ['\\', '"']
  else if c = '\\' then ['\\', '\\']
  else if c = '\x08' then ['\\', 'b']
  else if c = '\t' then ['\\', 't']
  else if c = '\n' then ['\\', 'n']
  else if c = '\x0c' then ['\\', 'f']
  else if c = '\r' then ['\\', 'r']
  else if c.toNat < 32 then
    ['\\', 'u', '0', '0', hexDigit (c.toNat / 16), hexDigit (c.toNat % 16)]
  else [c]

/-- JSON string literal for a modelled JS string. -/
def serStr (s : List Char) : List Char := '"' :: (s.map escapeChar).flatten ++ ['"']

def serWeb (w : WebSource) : List Char :=
  "\x7b\"uri\":".toList ++ serStr w.uri ++ ",\"title\":".toList ++ serStr w.title
    ++ ['\x7d']

def serChunk (ch : GroundingChunk) : List Char :=
  match ch.web with
  | some w => "\x7b\"web\":".toList ++ serWeb w ++ ['\x7d']
  | none => "\x7b\x7d".toList

def serChunksAux : List GroundingChunk → List Char
  | [] => []
  | [x] => serChunk x
  | x :: xs => serChunk x ++ ',' :: serChunksAux xs

/-- Model of JSON.stringify on an AnalysisResult: an absent groundingChunks
field is omitted altogether. -/
def serResult (r : AnalysisResult) : List Char :=
  "\x7b\"text\":".toList ++ serStr r.text ++
    (match r.groundingChunks with
     | none => []
     | some l => ",\"groundingChunks\":[".toList ++ serChunksAux l ++ [']']) ++
    ['\x7d']

def parseHexDigit (c : Char) : Option Nat :=
  if '0' ≤ c ∧ c ≤ '9' then some (c.toNat - '0'.toNat)
  else if 'a' ≤ c ∧ c ≤ 'f' then some (c.toNat - 'a'.toNat + 10)
  else if 'A' ≤ c ∧ c ≤ 'F' then some (c.toNat - 'A'.toNat + 10)
  else none

def decodeEsc (e : Char) : Option Char :=
  if e = '"' then some '"'
  else if e = '\\' then some '\\'
  else if e = '/' then some '/'
  else if e = 'b' then some '\x08'
  else if e = 't' then some '\t'
  else if e = 'n' then some '\n'
  else if e = 'f' then some '\x0c'
  else if e = 'r' then some '\r'
  else none

/-- Body of a JSON string literal, after its opening quote; returns the
decoded string and the input after the closing quote. -/
def parseStringBody : List Char → Option (List Char × List Char)
  | [] => none
  | c :: rest =>
    if c = '"' then some ([], rest)
    else if c = '\\' then
      match rest with
      | [] => none
      | e :: rest2 =>
        if e = 'u' then
          match rest2 with
          | h1 :: h2 :: h3 :: h4 :: rest3 =>
            match parseHexDigit h1, parseHexDigit h2, parseHexDigit h3,
                parseHexDigit h4 with
            | some a, some b, some c2, some d =>
              let n := ((a * 16 + b) * 16 + c2) * 16 + d
              if h : n.isValidChar then
                match parseStringBody rest3 with
                | some (s, r) => some (Char.ofNatAux n h :: s, r)
                | none => none
              else none
            | _, _, _, _ => none
          | _ => none
        else
          match decodeEsc e with
          | some c2 =>
            match parseStringBody rest2 with
            | some (s, r) => some (c2 :: s, r)
            | none => none
          | none => none
    else
      match parseStringBody rest with
      | some (s, r) => some (c :: s, r)
      | none => none

/-- A whole JSON string literal. -/
def parseStr : List Char → Option (List Char × List Char)
  | [] => none
  | c :: rest => if c = '"' then parseStringBody rest else none

/-- Consume an exact literal. -/
def expectLit : List Char → List Char → Option (List Char)
  | [], l => some l
  | _ :: _, [] => none
  | p :: ps, c :: cs => if c = p then expectLit ps cs else none

def parseWeb (l : List Char) : Option (WebSource × List Char) :=
  match expectLit ("\x7b\"uri\":".toList) l with
  | none => none
  | some l1 =>
    match parseStr l1 with
    | none => none
    | some (uri, l2) =>
      match expectLit (",\"title\":".toList) l2 with
      | none => none
      | some l3 =>
        match parseStr l3 with
        | none => none
        | some (title, l4) =>
          match expectLit ("\x7d".toList) l4 with
          | none => none
          | some l5 => some (⟨uri, title⟩, l5)

def parseChunk (l : List Char) : Option (GroundingChunk × List Char) :=
  match expectLit ("\x7b\x7d".toList) l with
  | some r => some (⟨none⟩, r)
  | none =>
    match expectLit ("\x7b\"web\":".toList) l with
    | none => none
    | some l1 =>
      match parseWeb l1 with
      | none => none
      | some (w, l2) =>
        match expectLit ("\x7d".toList) l2 with
        | none => none
        | some l3 => some (⟨some w⟩, l3)

/-- The elements of a JSON array of chunks, ended by ']'; fuel bounds the
number of elements. -/
def parseChunksAux : Nat → List Char → Option (List GroundingChunk × List Char)
  | 0, _ => none
  | _ + 1, [] => none
  | fuel + 1, c :: r =>
    if c = ']' then some ([], r)
    else
      match parseChunk (c :: r) with
      | none => none
      | some (ch, l1) =>
        match l1 with
        | [] => none
        | d :: r1 =>
          if d = ',' then
            match parseChunksAux fuel r1 with
            | some (chs, l2) => some (ch :: chs, l2)
            | none => none
          else if d = ']' then some ([ch], r1)
          else none

def parseResult (l : List Char) : Option (AnalysisResult × List Char) :=
  match expectLit ("\x7b\"text\":".toList) l with
  | none => none
  | some l1 =>
    match parseStr l1 with
    | none => none
    | some (txt, l2) =>
      match l2 with
      | [] => none
      | c :: r =>
        if c = '\x7d' then some (⟨txt, none⟩, r)
        else if c = ',' then
          match expectLit ("\"groundingChunks\":[".toList) r with
          | none => none
          | some l3 =>
            match parseChunksAux (l3.length + 1) l3 with
            | none => none
            | some (chs, l4) =>
              match expectLit ("\x7d".toList) l4 with
              | none => none
              | some l5 => some (⟨txt, some chs⟩, l5)
        else none

/-- Model of JSON.parse at the AnalysisResult shape: the whole input must be
consumed. -/
def decodeJson (l : List Char) : Option AnalysisResult :=
  match parseResult l with
  | some (r, []) => some r
  | _ => none

/-- Modelled from the spec: the compressToEncodedURIComponent /
decompressFromEncodedURIComponent pair of the third-party lz-string library is
not part of the repository source; per the spec the share boundary carries "a
compressed, URL-safe encoding of a serialized AnalysisResponse; decodable back
into the same structure on load".  The encoding is modelled over lz-string's
URI-safe alphabet, four alphabet digits per character. -/
def keyStr : List Char :=
  "ABCDEFGHIJKLMNOPQRSTUVWXYZabcdefghijklmnopqrstuvwxyz0123456789+-$".toList

def keyChar (n : Nat) : Char := keyStr.getD n '$'

def keyIndexAux : List Char → Nat → Char → Option Nat
  | [], _, _ => none
  | k :: ks, i, c => if c = k then some i else keyIndexAux ks (i + 1) c

def keyIndex (c : Char) : Option Nat := keyIndexAux keyStr 0 c

def compressChar (c : Char) : List Char :=
  [keyChar (c.toNat / 262144 % 64), keyChar (c.toNat / 4096 % 64),
   keyChar (c.toNat / 64 % 64), keyChar (c.toNat % 64)]

def compress (l : List Char) : List Char := (l.map compressChar).flatten

def decompress : List Char → Option (List Char)
  | [] => some []
  | a :: b :: c :: d :: rest =>
    match keyIndex a, keyIndex b, keyIndex c, keyIndex d with
    | some va, some vb, some vc, some vd =>
      let n := ((va * 64 + vb) * 64 + vc) * 64 + vd
      if h : n.isValidChar then
        match decompress rest with
        | some s => some (Char.ofNatAux n h :: s)
        | none => none
      else none
    | _, _, _, _ => none
  | _ => none

/-- handleCopyLink: compress the JSON serialization of the result. -/
def encodeShare (r : AnalysisResult) : List Char := compress (serResult r)

/-- The share-parameter decode effect: decompress, then JSON.parse. -/
def decodeShare (l : List Char) : Option AnalysisResult :=
  match decompress l with
  | some s => decodeJson s
  | none => none

/-- A line the classification loop matches against no handler at all, or whose
matched handler fails its sub-pattern: exactly the lines the source degrades on
without touching the accumulated state. -/
def lineNoOp (line : List Char) : Bool :=
  if (trimL line).isEmpty then true
  else if List.isPrefixOf ("confidence score".toList) (lowerL (trimL line)) then
    (extractAfterSep (trimL line)).isNone
  else if containsSub ("isic risk score".toList) (lowerL (trimL line))
      || containsSub ("isic score".toList) (lowerL (trimL line)) then
    (extractDigits (trimL line)).isNone
  else if containsSub ("glasgow score".toList) (lowerL (trimL line)) then
    (extractDigits (trimL line)).isNone
  else if containsSub ("risk level".toList) (lowerL (trimL line)) then
    (extractAfterSep (trimL line)).isNone
  else if containsSub ("ham10000 prediction".toList) (lowerL (trimL line)) then
    (extractAfterSep (trimL line)).isNone
  else if containsSub ("ham10000 confidence".toList) (lowerL (trimL line)) then
    (extractAfterSep (trimL line)).isNone
  else if containsSub ("dermatoscopic features".toList) (lowerL (trimL line)) then
    (extractAfterSep (trimL line)).isNone
  else
    (criterionMatch (trimL line)).isNone

/-! Helper lemmas. -/

theorem isPrefixOf_eq (p : List Char) :
    ∀ l, p.isPrefixOf l = true ↔ ∃ s, l = p ++ s := by
  induction p with
  | nil => intro l; simp [List.isPrefixOf]
  | cons a as ih =>
    intro l
    cases l with
    | nil => simp [List.isPrefixOf]
    | cons b bs =>
      simp only [List.isPrefixOf, Bool.and_eq_true, beq_iff_eq, ih,
        List.cons_append, List.cons.injEq]
      constructor
      · rintro ⟨rfl, s, rfl⟩; exact ⟨s, rfl, rfl⟩
      · rintro ⟨s, rfl, rfl⟩; exact ⟨rfl, s, rfl⟩

theorem isPrefixOf_append (p s : List Char) : p.isPrefixOf (p ++ s) = true :=
  (isPrefixOf_eq p (p ++ s)).mpr ⟨s, rfl⟩

theorem containsSub_iff (n : List Char) :
    ∀ h, containsSub n h = true ↔ OccursIn n h := by
  intro h
  induction h with
  | nil =>
    simp only [containsSub, OccursIn, List.isEmpty_eq_true]
    constructor
    · rintro rfl; exact ⟨[], [], rfl⟩
    · rintro ⟨p, s, hp⟩
      rcases List.append_eq_nil.mp hp.symm with ⟨h1, h2⟩
      exact (List.append_eq_nil.mp h1).2
  | cons c rest ih =>
    simp only [containsSub, Bool.or_eq_true, isPrefixOf_eq, ih]
    constructor
    · rintro (⟨s, hs⟩ | ⟨p, s, hp⟩)
      · exact ⟨[], s, by simp [hs]⟩
      · exact ⟨c :: p, s, by simp [hp]⟩
    · rintro ⟨p, s, hp⟩
      cases p with
      | nil => exact Or.inl ⟨s, by simpa using hp⟩
      | cons c' p' =>
        simp only [List.cons_append, List.cons.injEq] at hp
        exact Or.inr ⟨p', s, hp.2⟩

theorem occursIn_cons {n h : List Char} (c : Char) (hocc : OccursIn n h) :
    OccursIn n (c :: h) := by
  rcases hocc with ⟨p, s, rfl⟩
  exact ⟨c :: p, s, rfl⟩

theorem scanFor_none (label : List Char) (k : List Char → Option (List Char)) :
    ∀ t, ¬ OccursIn label (lowerL t) → scanFor label k t = none := by
  intro t
  induction t with
  | nil => intro _; rfl
  | cons c rest ih =>
    intro h
    have hpf : isPrefixCI label (c :: rest) = false := by
      rw [Bool.eq_false_iff]
      intro hp
      rcases (isPrefixOf_eq label _).mp hp with ⟨s, hs⟩
      exact h ⟨[], s, by simpa using hs⟩
    have hr : ¬ OccursIn label (lowerL rest) := by
      intro hocc
      exact h (by simpa [lowerL] using occursIn_cons (Char.toLower c) hocc)
    unfold scanFor
    simp [hpf, hr, ih]

/-! Claim theorems. -/

/-- Claim C1, counterexample: on a response whose structured block carries
`Risk Level: High` but no Suspicious finding and whose report body has no
alarm phrase, the parsed risk tier is "High" and yet the needs-attention flag
is false — the classifier never consults the risk-tier metric. -/
theorem risk_high_not_flagged_cex :
    (parseResponse ("~ABCDE_START~\nRisk Level: High\n~ABCDE_END~\nAll clear.".toList)).riskLevel
        = "High".toList ∧
    (parseResponse ("~ABCDE_START~\nRisk Level: High\n~ABCDE_END~\nAll clear.".toList)).abcdeData
        = [] ∧
    isGeneralSuspicious
        (parseResponse ("~ABCDE_START~\nRisk Level: High\n~ABCDE_END~\nAll clear.".toList))
      = false := by
  decide

/-- Claim C1, amended: the needs-attention flag is true exactly when some
parsed finding has status Suspicious, or the report body contains
(case-insensitively) "consult a doctor", "melanoma" or "carcinoma"; the
qualitative risk-tier metric plays no part in the flag. -/
theorem flag_iff_suspicious_or_phrase (t : List Char) :
    isGeneralSuspicious (parseResponse t) = true ↔
      ((∃ i ∈ (parseResponse t).abcdeData, i.status = Status.Suspicious) ∨
        OccursIn ("consult a doctor".toList) (lowerL (parseResponse t).cleanText) ∨
        OccursIn ("melanoma".toList) (lowerL (parseResponse t).cleanText) ∨
        OccursIn ("carcinoma".toList) (lowerL (parseResponse t).cleanText)) := by
  unfold isGeneralSuspicious hasSuspiciousItems
  simp [Bool.or_eq_true, List.any_eq_true, containsSub_iff, decide_eq_true_eq]
  simp [or_assoc]

set_option maxHeartbeats 1000000 in
/-- Claim C3: the response parser is a total function — every input yields a
(findings, metrics, reportBody) triple — and any line that matches no handler,
or whose matched handler fails its sub-pattern, leaves the parse state
untouched, so the remaining lines are still processed from the same state. -/
theorem parse_never_aborts (t : List Char) (st : ParseState) (line : List Char)
    (h : lineNoOp line = true) :
    (∃ res, parseResponse t = res) ∧ processLine st line = st := by
  refine ⟨⟨parseResponse t, rfl⟩, ?_⟩
  unfold processLine
  unfold lineNoOp at h
  split_ifs at h ⊢
  · rfl
  all_goals
    rw [Option.isNone_iff_eq_none] at h
    rw [h]

/-- Claim C3, witness. -/
theorem parse_never_aborts_w :
    (∃ res, parseResponse ("x".toList) = res) ∧
    processLine initState ("some prose with no label".toList) = initState :=
  parse_never_aborts ("x".toList) initState ("some prose with no label".toList)
    (by decide)

/-- Claim C5, counterexample: when the text contains none of the metric
labels, the stored metrics parser yields the in-range defaults 0 and "Low",
not a "not available" sentinel. -/
theorem stored_defaults_cex :
    parseMetrics ("hello".toList) = ⟨0, 0, 0, "Low".toList⟩ := by
  decide

/-- Claim C5, amended: the display parser leaves an absent metric at its "N/A"
sentinel, but the storage-side parseMetrics defaults every absent numeric
metric to 0 and an absent risk level to "Low" — in-range values a consumer
cannot distinguish from real measurements. -/
theorem parseMetrics_inrange_defaults (t : List Char)
    (h1 : ¬ OccursIn ("isic risk score".toList) (lowerL t))
    (h2 : ¬ OccursIn ("glasgow score".toList) (lowerL t))
    (h3 : ¬ OccursIn ("confidence score".toList) (lowerL t))
    (h4 : ¬ OccursIn ("risk level".toList) (lowerL t)) :
    parseMetrics t = ⟨0, 0, 0, "Low".toList⟩ ∧
    (parseResponse ("no data".toList)).isicScore = notAvailable ∧
    (parseResponse ("no data".toList)).riskLevel = notAvailable := by
  refine ⟨?_, by decide, by decide⟩
  unfold parseMetrics
  rw [scanFor_none _ _ t h1, scanFor_none _ _ t h2, scanFor_none _ _ t h3,
    scanFor_none _ _ t h4]

/-- Claim C5, witness. -/
theorem parseMetrics_inrange_defaults_w :
    parseMetrics ("benign mole".toList) = ⟨0, 0, 0, "Low".toList⟩ ∧
    (parseResponse ("no data".toList)).isicScore = notAvailable ∧
    (parseResponse ("no data".toList)).riskLevel = notAvailable :=
  parseMetrics_inrange_defaults ("benign mole".toList)
    (fun hocc => absurd ((containsSub_iff _ _).mpr hocc) (by decide))
    (fun hocc => absurd ((containsSub_iff _ _).mpr hocc) (by decide))
    (fun hocc => absurd ((containsSub_iff _ _).mpr hocc) (by decide))
    (fun hocc => absurd ((containsSub_iff _ _).mpr hocc) (by decide))

/-- Claim C6, counterexample: an input without the marker pair whose ends are
whitespace is returned as reportBody exactly as it came in — the source only
trims when the block is present, so the body differs from the trimmed text. -/
theorem body_not_trimmed_cex :
    findBlock ("  hi  ".toList) = none ∧
    (parseResponse ("  hi  ".toList)).cleanText ≠ trimL ("  hi  ".toList) := by
  decide

/-- Claim C6, amended: for every input in which no start marker is followed by
an end marker, the parser yields zero findings, every metric at its "N/A"
sentinel, and reportBody equal to the original input text verbatim (without
trimming). -/
theorem no_marker_defaults (t : List Char) (h : findBlock t = none) :
    parseResponse t =
      ⟨[], t, notAvailable, notAvailable, notAvailable, notAvailable,
        notAvailable, notAvailable, []⟩ := by
  unfold parseResponse
  rw [h]
  rfl

/-- Claim C6, witness. -/
theorem no_marker_defaults_w :
    parseResponse ("hello".toList) =
      ⟨[], "hello".toList, notAvailable, notAvailable, notAvailable,
        notAvailable, notAvailable, notAvailable, []⟩ :=
  no_marker_defaults ("hello".toList) (by decide)

/-- Claim C7, counterexample: the recognized criterion line "B:" (empty
content) produces a finding whose summary is the empty string — the blank
fallback of the claim does not hold when the status is Unknown and the raw
content is itself empty. -/
theorem blank_summary_cex :
    parseResponse ("~ABCDE_START~\nB:\n~ABCDE_END~\nr".toList) =
      ⟨[⟨"B".toList, "Border".toList, Status.Unknown, []⟩], "r".toList,
        notAvailable, notAvailable, notAvailable, notAvailable, notAvailable,
        notAvailable, []⟩ := by
  decide

/-- Claim C7, amended: when the stripped remainder is empty the summary falls
back to the status word and is non-blank whenever the status is Benign or
Suspicious; with status Unknown it falls back to the raw content, which may be
blank.  A line such as "B - " (space before the separator) is not recognized
as a criterion line at all and yields no finding. -/
theorem summary_fallback_amended (st : Status) (content : List Char)
    (h : st ≠ Status.Unknown) :
    deriveSummary st content ≠ [] ∧
    (parseResponse ("~ABCDE_START~\nB - \n~ABCDE_END~\nr".toList)).abcdeData = [] := by
  constructor
  · by_cases hs :
      (trimL (stripLeadingPunct (stripLeadingStatus (stripBracketTok content)))).isEmpty
    · cases st with
      | Unknown => exact absurd rfl h
      | Benign => simp [deriveSummary, hs, statusWord]
      | Suspicious => simp [deriveSummary, hs, statusWord]
    · simp only [deriveSummary, hs, Bool.false_eq_true, if_false]
      simpa using hs
  · decide

/-- Claim C7, witness. -/
theorem summary_fallback_amended_w :
    deriveSummary Status.Benign ("x".toList) ≠ [] ∧
    (parseResponse ("~ABCDE_START~\nB - \n~ABCDE_END~\nr".toList)).abcdeData = [] :=
  summary_fallback_amended Status.Benign ("x".toList) (by decide)

/-- Claim C9: the example block parses to exactly one finding (code "A",
status Suspicious, summary "uneven halves"), confidence "82%", ISIC score "6"
and reportBody "Rest of report."; and any recognized criterion line whose
content contains "suspicious" in any letter case derives status Suspicious. -/
theorem example_scenario_and_suspicious (line key content : List Char)
    (h1 : criterionMatch line = some (key, content))
    (h2 : OccursIn ("suspicious".toList) (lowerL content)) :
    parseResponse
        ("~ABCDE_START~\nConfidence Score: 82%\nISIC Risk Score: 6\nA: Suspicious - uneven halves\n~ABCDE_END~\nRest of report.".toList) =
      ⟨[⟨"A".toList, "Asymmetry".toList, Status.Suspicious, "uneven halves".toList⟩],
        "Rest of report.".toList, "82%".toList, "6".toList, notAvailable,
        notAvailable, notAvailable, notAvailable, []⟩ ∧
    deriveStatus content = Status.Suspicious := by
  constructor
  · decide
  · have hc : containsSub ("suspicious".toList) (lowerL content) = true :=
      (containsSub_iff _ _).mpr h2
    unfold deriveStatus
    rw [if_pos hc]

/-- Claim C9, witness. -/
theorem example_scenario_and_suspicious_w :
    parseResponse
        ("~ABCDE_START~\nConfidence Score: 82%\nISIC Risk Score: 6\nA: Suspicious - uneven halves\n~ABCDE_END~\nRest of report.".toList) =
      ⟨[⟨"A".toList, "Asymmetry".toList, Status.Suspicious, "uneven halves".toList⟩],
        "Rest of report.".toList, "82%".toList, "6".toList, notAvailable,
        notAvailable, notAvailable, notAvailable, []⟩ ∧
    deriveStatus ("is quite suSPICious overall".toList) = Status.Suspicious :=
  example_scenario_and_suspicious ("C: is quite suSPICious overall".toList)
    ("C".toList) ("is quite suSPICious overall".toList) (by decide)
    ⟨"is quite ".toList, " overall".toList, by decide⟩

theorem digit_not_ws (c : Char) (h : c.isDigit = true) : isWS c = false := by
  simp only [Char.isDigit, Bool.and_eq_true, decide_eq_true_eq] at h
  obtain ⟨h1, h2⟩ := h
  simp only [isWS, Bool.or_eq_false_iff, decide_eq_false_iff_not]
  refine ⟨⟨⟨⟨⟨?_, ?_⟩, ?_⟩, ?_⟩, ?_⟩, ?_⟩ <;> rintro rfl <;> exact absurd h1 (by decide)

theorem trimL_of_ends (l : List Char) (h1 : l.dropWhile isWS = l)
    (h2 : l.reverse.dropWhile isWS = l.reverse) : trimL l = l := by
  unfold trimL
  rw [h1, h2, List.reverse_reverse]

theorem dropWhile_rev_digits (P : List Char) (d : Char) (ds' : List Char)
    (hd : ∀ c ∈ d :: ds', c.isDigit = true) :
    ((P ++ d :: ds').reverse).dropWhile isWS = (P ++ d :: ds').reverse := by
  rw [List.reverse_append]
  cases hrev : (d :: ds').reverse with
  | nil => simp at hrev
  | cons e es =>
    have he : e.isDigit = true :=
      hd e (List.mem_reverse.mp (hrev ▸ List.mem_cons_self e es))
    exact List.dropWhile_cons_of_neg (by simp [digit_not_ws e he])

theorem all_digits_trimL (ds : List Char) (hd : ∀ c ∈ ds, c.isDigit = true) :
    trimL ds = ds := by
  cases ds with
  | nil => rfl
  | cons d ds' =>
    refine trimL_of_ends _ ?_ ?_
    · exact List.dropWhile_cons_of_neg
        (by simp [digit_not_ws d (hd d (List.mem_cons_self d ds'))])
    · have h2 := dropWhile_rev_digits [] d ds' hd
      simpa using h2

theorem containsSub_of_isPrefixOf (n l : List Char) (h : n.isPrefixOf l = true) :
    containsSub n l = true := by
  cases l with
  | nil =>
    cases n with
    | nil => rfl
    | cons a as => simp [List.isPrefixOf] at h
  | cons c r => simp [containsSub, h]

theorem extractDigits_append_nonsep (P : List Char)
    (hP : ∀ c ∈ P, isSep c = false) (X : List Char) :
    extractDigits (P ++ X) = extractDigits X := by
  induction P with
  | nil => rfl
  | cons c rest ih =>
    have hc : isSep c = false := hP c (List.mem_cons_self c rest)
    rw [List.cons_append]
    have hstep : extractDigits (c :: (rest ++ X)) = extractDigits (rest ++ X) := by
      simp only [extractDigits]
      rw [if_neg (by simp [hc])]
    rw [hstep]
    exact ih (fun x hx => hP x (List.mem_cons_of_mem c hx))

/-- Claim C4, amended: an out-of-range numeric metric is neither clamped nor
marked "not available": the parser stores the first digit run verbatim,
whatever its value.  For every non-empty all-digit string ds, the line
`ISIC Risk Score: <ds>` stores exactly ds as the metric. -/
theorem isic_passthrough (ds : List Char) (hne : ds ≠ [])
    (hd : ∀ c ∈ ds, c.isDigit = true) :
    processLine initState ("ISIC Risk Score: ".toList ++ ds) =
      { initState with isic := ds } := by
  obtain ⟨d, ds', rfl⟩ := List.exists_cons_of_ne_nil hne
  have hdd : d.isDigit = true := hd d (List.mem_cons_self d ds')
  have hdw : isWS d = false := digit_not_ws d hdd
  have ha : trimL ("ISIC Risk Score: ".toList ++ d :: ds') =
      "ISIC Risk Score: ".toList ++ d :: ds' := by
    refine trimL_of_ends _ ?_ (dropWhile_rev_digits _ d ds' hd)
    rw [(by decide : ("ISIC Risk Score: ".toList) =
        'I' :: "SIC Risk Score: ".toList), List.cons_append]
    exact List.dropWhile_cons_of_neg (by decide)
  have hlow : lowerL ("ISIC Risk Score: ".toList ++ d :: ds') =
      "isic risk score: ".toList ++ lowerL (d :: ds') := by
    unfold lowerL
    rw [List.map_append]
    congr 1
  have hc : List.isPrefixOf ("confidence score".toList)
      (lowerL ("ISIC Risk Score: ".toList ++ d :: ds')) = false := by
    rw [hlow]
    rw [(by decide : ("isic risk score: ".toList) =
        'i' :: "sic risk score: ".toList), List.cons_append]
    rw [(by decide : ("confidence score".toList) =
        'c' :: "onfidence score".toList)]
    simp [List.isPrefixOf]
  have hd4 : containsSub ("isic risk score".toList)
      (lowerL ("ISIC Risk Score: ".toList ++ d :: ds')) = true := by
    rw [hlow]
    refine containsSub_of_isPrefixOf _ _ ?_
    rw [(by decide : ("isic risk score: ".toList) =
        "isic risk score".toList ++ ": ".toList), List.append_assoc]
    exact isPrefixOf_append _ _
  have hts : (d :: ds').takeWhile Char.isDigit = d :: ds' :=
    List.takeWhile_eq_self_iff.mpr hd
  have he : extractDigits ("ISIC Risk Score: ".toList ++ d :: ds') =
      some (d :: ds') := by
    rw [(by decide : ("ISIC Risk Score: ".toList) =
        "ISIC Risk Score".toList ++ [':', ' ']), List.append_assoc]
    rw [extractDigits_append_nonsep _ (by decide) _]
    rw [(by rfl : ([':', ' '] ++ d :: ds') = ':' :: ' ' :: d :: ds')]
    simp only [extractDigits]
    rw [if_pos (by decide)]
    rw [List.dropWhile_cons_of_pos (by decide),
      List.dropWhile_cons_of_neg (by simp [hdw])]
    simp [hdd, hts]
  have hf : trimL (d :: ds') = d :: ds' := all_digits_trimL _ hd
  have h0 : ("ISIC Risk Score: ".toList ++ d :: ds').isEmpty = false := by
    rw [(by decide : ("ISIC Risk Score: ".toList) =
        'I' :: "SIC Risk Score: ".toList), List.cons_append]
    rfl
  unfold processLine
  rw [ha, h0, hc, hd4, he]
  simp only [Bool.false_eq_true, if_false, Bool.true_or, if_true, hf]
/-- Claim C4, counterexample: the out-of-range score line "ISIC Risk Score:
15" parses to the metric "15" in the display parser (neither the clamped
"10" nor the "N/A" sentinel) and to the number 15 in the stored metrics. -/
theorem isic_not_clamped_cex :
    (parseResponse ("~ABCDE_START~\nISIC Risk Score: 15\n~ABCDE_END~\nx".toList)).isicScore
        = "15".toList ∧
    ("15".toList ≠ "10".toList) ∧ ("15".toList ≠ notAvailable) ∧
    (parseMetrics ("ISIC Risk Score: 15".toList)).isicScore = 15 := by
  decide

/-- Claim C4, witness. -/
theorem isic_passthrough_w :
    processLine initState ("ISIC Risk Score: ".toList ++ "15".toList) =
      { initState with isic := "15".toList } :=
  isic_passthrough ("15".toList) (by decide) (by decide)

theorem isPrefixCI_of_append (pat P X : List Char) (hP : lowerL P = pat) :
    isPrefixCI pat (P ++ X) = true := by
  unfold isPrefixCI
  unfold lowerL at hP ⊢
  rw [List.map_append, hP]
  exact isPrefixOf_append _ _

theorem isPrefixCI_false_head (p : Char) (pat' : List Char) (c : Char)
    (rest : List Char) (h : ¬(p = Char.toLower c)) :
    isPrefixCI (p :: pat') (c :: rest) = false := by
  unfold isPrefixCI
  simp [lowerL, List.isPrefixOf, h]

theorem splitAtEnd_append (l : List Char) (h : '~' ∉ lowerL l) (X : List Char) :
    splitAtEnd (l ++ X) =
      match splitAtEnd X with
      | some (b, a) => some (l ++ b, a)
      | none => none := by
  induction l with
  | nil =>
    cases hX : splitAtEnd X with
    | none => simp [hX]
    | some p => cases p with | mk b a => simp [hX]
  | cons c rest ih =>
    have hc : ¬('~' = Char.toLower c) := by
      intro he
      exact h (by simp [lowerL, ← he])
    have hh : '~' ∉ lowerL rest := by
      intro hm
      refine h ?_
      simp only [lowerL, List.map_cons, List.mem_cons]
      exact Or.inr hm
    rw [List.cons_append]
    simp only [splitAtEnd]
    rw [(by decide : endMarker = '~' :: "abcde_end~".toList)]
    rw [isPrefixCI_false_head '~' _ c _ hc]
    simp only [Bool.false_eq_true, if_false]
    rw [ih hh]
    cases hX : splitAtEnd X with
    | none => simp
    | some p => cases p with | mk b a => simp

theorem findBlock_first (pre mid post : List Char)
    (hpre : '~' ∉ lowerL pre) (hmid : '~' ∉ lowerL mid) :
    findBlock (pre ++ startLit ++ mid ++ endLit ++ post) = some (pre, mid, post) := by
  induction pre with
  | nil =>
    simp only [List.nil_append]
    have hsh : (startLit ++ (mid ++ (endLit ++ post))) =
        '~' :: ("ABCDE_START~".toList ++ (mid ++ (endLit ++ post))) := by
      rw [(by decide : startLit = '~' :: "ABCDE_START~".toList), List.cons_append]
    rw [List.append_assoc, List.append_assoc, hsh]
    simp only [findBlock]
    rw [show isPrefixCI startMarker
        ('~' :: ("ABCDE_START~".toList ++ (mid ++ (endLit ++ post)))) = true from by
      rw [← hsh]
      exact isPrefixCI_of_append _ _ _ (by decide)]
    simp only [if_true]
    rw [show ('~' :: ("ABCDE_START~".toList ++ (mid ++ (endLit ++ post)))).drop 13 =
        mid ++ (endLit ++ post) from by
      rw [← List.cons_append, List.drop_left' (by decide)]]
    rw [splitAtEnd_append mid hmid]
    have heh : (endLit ++ post) = '~' :: ("ABCDE_END~".toList ++ post) := by
      rw [(by decide : endLit = '~' :: "ABCDE_END~".toList), List.cons_append]
    rw [heh]
    simp only [splitAtEnd]
    rw [show isPrefixCI endMarker ('~' :: ("ABCDE_END~".toList ++ post)) = true from by
      rw [← heh]
      exact isPrefixCI_of_append _ _ _ (by decide)]
    simp only [if_true]
    rw [show ('~' :: ("ABCDE_END~".toList ++ post)).drop 11 = post from by
      rw [← List.cons_append, List.drop_left' (by decide)]]
    simp
  | cons c pre' ih =>
    have hc : ¬('~' = Char.toLower c) := by
      intro he
      exact hpre (by simp [lowerL, ← he])
    have hh : '~' ∉ lowerL pre' := by
      intro hm
      refine hpre ?_
      simp only [lowerL, List.map_cons, List.mem_cons]
      exact Or.inr hm
    rw [List.cons_append, List.cons_append, List.cons_append, List.cons_append]
    simp only [findBlock]
    rw [(by decide : startMarker = '~' :: "abcde_start~".toList)]
    rw [isPrefixCI_false_head '~' _ c _ hc]
    simp only [Bool.false_eq_true, if_false]
    have ih2 := ih hh
    rw [List.append_assoc, List.append_assoc] at ih2 ⊢
    rw [ih2]
/-- Claim C10: when the text decomposes as pre ++ start-marker ++ mid ++
end-marker ++ post with no tilde inside pre or mid (so the shown block is the
leftmost one), the parser takes findings and metrics from mid alone and the
reportBody is pre ++ post trimmed — any later block inside post, markers and
content included, stays verbatim in the remaining text and contributes no
findings or metrics. -/
theorem parse_first_block_only (pre mid post : List Char)
    (hpre : '~' ∉ lowerL pre) (hmid : '~' ∉ lowerL mid) :
    parseResponse (pre ++ startLit ++ mid ++ endLit ++ post) =
      mkParseResult (parseLines (trimL mid)) (trimL (pre ++ post)) := by
  unfold parseResponse
  rw [findBlock_first pre mid post hpre hmid]

/-- Claim C10, witness: the tail carries a complete second block. -/
theorem parse_first_block_only_w :
    parseResponse ("Intro ".toList ++ startLit ++ "\nA: Suspicious - x\n".toList
        ++ endLit ++ " then ~ABCDE_START~\nB: Benign - y\n~ABCDE_END~ end".toList) =
      mkParseResult (parseLines (trimL ("\nA: Suspicious - x\n".toList)))
        (trimL ("Intro ".toList ++ " then ~ABCDE_START~\nB: Benign - y\n~ABCDE_END~ end".toList)) :=
  parse_first_block_only ("Intro ".toList) ("\nA: Suspicious - x\n".toList)
    (" then ~ABCDE_START~\nB: Benign - y\n~ABCDE_END~ end".toList)
    (by decide) (by decide)

theorem take_append_take (A B : List HistoryEntry) (n : Nat) :
    (A ++ B.take n).take n = (A ++ B).take n := by
  rw [List.take_append_eq_append_take, List.take_append_eq_append_take,
    List.take_take]
  congr 1
  rw [Nat.min_eq_left (Nat.sub_le n A.length)]

theorem foldl_save_history (l : List HistoryEntry) :
    ∀ st : AppHistState, l ≠ [] →
      l.foldl saveToHistory st =
        ⟨(l.reverse ++ st.history).take st.limit, st.limit⟩ := by
  induction l with
  | nil => intro st h; exact absurd rfl h
  | cons x xs ih =>
    intro st _
    rw [List.foldl_cons]
    by_cases hxs : xs = []
    · subst hxs
      simp [saveToHistory]
    · rw [ih _ hxs]
      simp only [saveToHistory]
      congr 1
      rw [take_append_take, List.reverse_cons, List.append_assoc,
        List.singleton_append]

theorem applyHistOp_inv (st : AppHistState) (h : st.history.length ≤ st.limit)
    (op : HistOp) :
    (applyHistOp st op).history.length ≤ (applyHistOp st op).limit := by
  cases op with
  | save item =>
    simp only [applyHistOp, saveToHistory, List.length_take]
    omega
  | limitChange n =>
    by_cases hl : st.history.length > n
    · simp only [applyHistOp, handleLimitChange, hl, if_true, List.length_take]
      omega
    · simp only [applyHistOp, handleLimitChange, hl, if_false]
      omega
  | load stored lim =>
    by_cases hl : stored.length > (lim.getD 10)
    · simp only [applyHistOp, loadFromStorage, hl, if_true, List.length_take]
      omega
    · simp only [applyHistOp, loadFromStorage, hl, if_false]
      omega
  | delete i =>
    simp only [applyHistOp, deleteHistoryItem]
    exact Nat.le_trans (List.length_filter_le _ _) h

theorem foldl_ops_inv (ops : List HistOp) :
    ∀ st : AppHistState, st.history.length ≤ st.limit →
      (ops.foldl applyHistOp st).history.length ≤
        (ops.foldl applyHistOp st).limit := by
  induction ops with
  | nil => intro st h; exact h
  | cons op ops ih =>
    intro st h
    rw [List.foldl_cons]
    exact ih _ (applyHistOp_inv st h op)

/-- Claim C2: with cap N, saving N+1 analyses (in increasing timestamp order)
leaves exactly N records — the N most recent, the oldest is evicted — and
after any sequence of history-mutating operations (save, limit change, load,
delete) starting from the initial state the count never exceeds the cap. -/
theorem history_retention_cap (init : AppHistState) (items : List HistoryEntry)
    (hlen : items.length = init.limit + 1)
    (hmono : items.Pairwise fun a b => a.timestamp < b.timestamp) :
    (items.foldl saveToHistory init).history.length = init.limit ∧
    (items.foldl saveToHistory init).history = (items.drop 1).reverse ∧
    (∀ a, items.head? = some a →
      ∀ b ∈ (items.foldl saveToHistory init).history, a.timestamp < b.timestamp) ∧
    (∀ ops : List HistOp,
      (ops.foldl applyHistOp initialAppState).history.length ≤
        (ops.foldl applyHistOp initialAppState).limit) := by
  obtain ⟨a0, tl, rfl⟩ : ∃ a0 tl, items = a0 :: tl := by
    cases items with
    | nil => simp at hlen
    | cons a tl => exact ⟨a, tl, rfl⟩
  have htl : tl.length = init.limit := by simpa using hlen
  have hfold := foldl_save_history (a0 :: tl) init (List.cons_ne_nil _ _)
  have h1 : (tl.reverse ++ [a0]).take init.limit = tl.reverse := by
    rw [List.take_append_eq_append_take]
    rw [show init.limit = tl.reverse.length from by simp [htl]]
    rw [List.take_length]
    simp
  have hkey : ((a0 :: tl).reverse ++ init.history).take init.limit = tl.reverse := by
    rw [List.reverse_cons, List.take_append_eq_append_take]
    have hlen2 : (tl.reverse ++ [a0]).length = init.limit + 1 := by simp [htl]
    rw [show init.limit - (tl.reverse ++ [a0]).length = 0 from by rw [hlen2]; omega]
    rw [h1]
    simp
  have hhist : ((a0 :: tl).foldl saveToHistory init).history = tl.reverse := by
    rw [hfold]
    exact hkey
  refine ⟨?_, ?_, ?_, ?_⟩
  · rw [hhist]
    simp [htl]
  · rw [hhist]
    rfl
  · intro a ha b hb
    have ha0 : a0 = a := by simpa using ha
    rw [hhist] at hb
    have hbtl : b ∈ tl := List.mem_reverse.mp hb
    have hp := (List.pairwise_cons.mp hmono).1
    rw [← ha0]
    exact hp b hbtl
  · intro ops
    exact foldl_ops_inv ops initialAppState (by simp [initialAppState])

/-- Claim C2, witness: cap 2, three saves. -/
theorem history_retention_cap_w :
    (([⟨1, 1⟩, ⟨2, 2⟩, ⟨3, 3⟩] : List HistoryEntry).foldl saveToHistory
        ⟨[], 2⟩).history.length = 2 ∧
    (([⟨1, 1⟩, ⟨2, 2⟩, ⟨3, 3⟩] : List HistoryEntry).foldl saveToHistory
        ⟨[], 2⟩).history =
      (([⟨1, 1⟩, ⟨2, 2⟩, ⟨3, 3⟩] : List HistoryEntry).drop 1).reverse ∧
    (∀ a, ([⟨1, 1⟩, ⟨2, 2⟩, ⟨3, 3⟩] : List HistoryEntry).head? = some a →
      ∀ b ∈ (([⟨1, 1⟩, ⟨2, 2⟩, ⟨3, 3⟩] : List HistoryEntry).foldl saveToHistory
        ⟨[], 2⟩).history, a.timestamp < b.timestamp) ∧
    (∀ ops : List HistOp,
      (ops.foldl applyHistOp initialAppState).history.length ≤
        (ops.foldl applyHistOp initialAppState).limit) :=
  history_retention_cap ⟨[], 2⟩ [⟨1, 1⟩, ⟨2, 2⟩, ⟨3, 3⟩] (by decide)
    (by decide)

theorem parseHex_hexDigit : ∀ n, n < 16 → parseHexDigit (hexDigit n) = some n := by
  decide

theorem ofNatAux_toNat (c : Char) (hv : c.toNat.isValidChar) :
    Char.ofNatAux c.toNat hv = c := by
  have h9 : Char.ofNatAux c.toNat hv = Char.ofNat c.toNat := by
    unfold Char.ofNat
    rw [dif_pos hv]
  rw [h9, Char.ofNat_toNat]

theorem parseStringBody_quote (X : List Char) :
    parseStringBody ('"' :: X) = some ([], X) := by
  rw [parseStringBody.eq_def]
  rfl

theorem parseStringBody_esc (e c2 : Char) (hne : ¬(e = 'u'))
    (hdec : decodeEsc e = some c2) (X : List Char) :
    parseStringBody ('\\' :: e :: X) =
      match parseStringBody X with
      | some (s, r) => some (c2 :: s, r)
      | none => none := by
  rw [parseStringBody.eq_def]
  simp only []
  rw [if_neg (by decide), if_pos trivial]
  rw [if_neg hne, hdec]

theorem parseStringBody_raw (c : Char) (h1 : ¬(c = '"')) (h2 : ¬(c = '\\'))
    (X : List Char) :
    parseStringBody (c :: X) =
      match parseStringBody X with
      | some (s, r) => some (c :: s, r)
      | none => none := by
  rw [parseStringBody.eq_def]
  simp only []
  rw [if_neg h1, if_neg h2]

theorem parseStringBody_u (t : Nat) (hv : t.isValidChar) (h32 : t < 32)
    (X : List Char) :
    parseStringBody ('\\' :: 'u' :: '0' :: '0' :: hexDigit (t / 16) ::
        hexDigit (t % 16) :: X) =
      match parseStringBody X with
      | some (s, r) => some (Char.ofNatAux t hv :: s, r)
      | none => none := by
  rw [parseStringBody.eq_def]
  simp only []
  rw [if_neg (by decide), if_pos trivial]
  rw [if_pos trivial]
  rw [(by decide : parseHexDigit '0' = some 0),
    parseHex_hexDigit (t / 16) (by omega), parseHex_hexDigit (t % 16) (by omega)]
  simp only []
  have hn : ((0 * 16 + 0) * 16 + t / 16) * 16 + t % 16 = t := by omega
  simp only [hn]
  rw [dif_pos hv]

theorem parse_escape (s : List Char) :
    ∀ rest, parseStringBody ((s.map escapeChar).flatten ++ '"' :: rest) =
      some (s, rest) := by
  induction s with
  | nil =>
    intro rest
    rw [List.map_nil, List.flatten_nil, List.nil_append, parseStringBody_quote]
  | cons c s' ih =>
    intro rest
    rw [List.map_cons, List.flatten_cons, List.append_assoc]
    by_cases h1 : c = '"'
    · subst h1
      show parseStringBody (('\\' :: '"' :: []) ++ _) = _
      rw [List.cons_append, List.cons_append, List.nil_append]
      rw [parseStringBody_esc '"' '"' (by decide) (by decide), ih rest]
    · by_cases h2 : c = '\\'
      · subst h2
        show parseStringBody (('\\' :: '\\' :: []) ++ _) = _
        rw [List.cons_append, List.cons_append, List.nil_append]
        rw [parseStringBody_esc '\\' '\\' (by decide) (by decide), ih rest]
      · by_cases h3 : c = '\x08'
        · subst h3
          show parseStringBody (('\\' :: 'b' :: []) ++ _) = _
          rw [List.cons_append, List.cons_append, List.nil_append]
          rw [parseStringBody_esc 'b' '\x08' (by decide) (by decide), ih rest]
        · by_cases h4 : c = '\t'
          · subst h4
            show parseStringBody (('\\' :: 't' :: []) ++ _) = _
            rw [List.cons_append, List.cons_append, List.nil_append]
            rw [parseStringBody_esc 't' '\t' (by decide) (by decide), ih rest]
          · by_cases h5 : c = '\n'
            · subst h5
              show parseStringBody (('\\' :: 'n' :: []) ++ _) = _
              rw [List.cons_append, List.cons_append, List.nil_append]
              rw [parseStringBody_esc 'n' '\n' (by decide) (by decide), ih rest]
            · by_cases h6 : c = '\x0c'
              · subst h6
                show parseStringBody (('\\' :: 'f' :: []) ++ _) = _
                rw [List.cons_append, List.cons_append, List.nil_append]
                rw [parseStringBody_esc 'f' '\x0c' (by decide) (by decide), ih rest]
              · by_cases h7 : c = '\r'
                · subst h7
                  show parseStringBody (('\\' :: 'r' :: []) ++ _) = _
                  rw [List.cons_append, List.cons_append, List.nil_append]
                  rw [parseStringBody_esc 'r' '\r' (by decide) (by decide), ih rest]
                · by_cases h8 : c.toNat < 32
                  · have hesc : escapeChar c =
                        ['\\', 'u', '0', '0', hexDigit (c.toNat / 16),
                          hexDigit (c.toNat % 16)] := by
                      unfold escapeChar
                      rw [if_neg h1, if_neg h2, if_neg h3, if_neg h4, if_neg h5,
                        if_neg h6, if_neg h7, if_pos h8]
                    rw [hesc]
                    simp only [List.cons_append, List.nil_append]
                    rw [parseStringBody_u c.toNat c.valid h8, ih rest]
                    simp only []
                    rw [ofNatAux_toNat]
                  · have hesc : escapeChar c = [c] := by
                      unfold escapeChar
                      rw [if_neg h1, if_neg h2, if_neg h3, if_neg h4, if_neg h5,
                        if_neg h6, if_neg h7, if_neg h8]
                    rw [hesc]
                    simp only [List.cons_append, List.nil_append]
                    rw [parseStringBody_raw c h1 h2, ih rest]



theorem expectLit_append (lit : List Char) :
    ∀ rest, expectLit lit (lit ++ rest) = some rest := by
  induction lit with
  | nil => intro rest; rfl
  | cons p ps ih =>
    intro rest
    rw [List.cons_append]
    show expectLit (p :: ps) (p :: (ps ++ rest)) = some rest
    rw [expectLit.eq_def]
    simp only []
    rw [if_pos trivial]
    exact ih rest

theorem parseStr_cons (c : Char) (X : List Char) :
    parseStr (c :: X) = if c = '"' then parseStringBody X else none := rfl

theorem parseStr_ser (s : List Char) (rest : List Char) :
    parseStr (serStr s ++ rest) = some (s, rest) := by
  unfold serStr
  simp only [List.cons_append]
  rw [parseStr_cons]
  rw [if_pos rfl]
  rw [List.append_assoc, List.singleton_append]
  exact parse_escape s rest

theorem expectLit_close (rest : List Char) :
    expectLit ("\x7d".toList) ('\x7d' :: rest) = some rest := by
  have h := expectLit_append ("\x7d".toList) rest
  rw [(by rfl : ("\x7d".toList ++ rest) = '\x7d' :: rest)] at h
  exact h

theorem parseWeb_ser (w : WebSource) (rest : List Char) :
    parseWeb (serWeb w ++ rest) = some (w, rest) := by
  unfold serWeb parseWeb
  simp only [List.append_assoc]
  rw [expectLit_append]
  simp only []
  rw [parseStr_ser]
  simp only []
  rw [expectLit_append]
  simp only []
  rw [parseStr_ser]
  simp only []
  rw [List.singleton_append, expectLit_close]



theorem parseChunk_ser (ch : GroundingChunk) (rest : List Char) :
    parseChunk (serChunk ch ++ rest) = some (ch, rest) := by
  cases ch with
  | mk web =>
    cases web with
    | none =>
      show parseChunk ("\x7b\x7d".toList ++ rest) = _
      unfold parseChunk
      rw [expectLit_append]
    | some w =>
      show parseChunk (("\x7b\"web\":".toList ++ serWeb w ++ ['\x7d']) ++ rest) = _
      unfold parseChunk
      simp only [List.append_assoc]
      rw [show expectLit ("\x7b\x7d".toList)
          ("\x7b\"web\":".toList ++ (serWeb w ++ (['\x7d'] ++ rest))) = none from by
        rw [(by decide : ("\x7b\x7d".toList) = '\x7b' :: ['\x7d'])]
        rw [(by decide : ("\x7b\"web\":".toList) = '\x7b' :: '"' :: "web\":".toList)]
        rw [List.cons_append, List.cons_append]
        rw [expectLit.eq_def]
        simp only []
        rw [if_pos trivial]
        rw [expectLit.eq_def]
        simp only []
        rw [if_neg (by decide)]]
      simp only []
      rw [expectLit_append]
      simp only []
      rw [parseWeb_ser]
      simp only []
      rw [List.singleton_append, expectLit_close]

theorem serChunk_head : ∀ ch : GroundingChunk, ∃ tl, serChunk ch = '\x7b' :: tl := by
  intro ch
  cases ch with
  | mk web =>
    cases web with
    | none => exact ⟨['\x7d'], rfl⟩
    | some w =>
      refine ⟨'"' :: "web\":".toList ++ serWeb w ++ ['\x7d'], ?_⟩
      show "\x7b\"web\":".toList ++ serWeb w ++ ['\x7d'] = _
      rw [(by decide : ("\x7b\"web\":".toList) = '\x7b' :: ('"' :: "web\":".toList))]
      rw [List.cons_append, List.cons_append]

theorem parseChunksAux_ser (chs : List GroundingChunk) :
    ∀ fuel rest, chs.length + 1 ≤ fuel →
      parseChunksAux fuel (serChunksAux chs ++ ']' :: rest) = some (chs, rest) := by
  induction chs with
  | nil =>
    intro fuel rest hf
    obtain ⟨f, rfl⟩ : ∃ f, fuel = f + 1 := ⟨fuel - 1, by omega⟩
    show parseChunksAux (f + 1) (']' :: rest) = some ([], rest)
    rw [parseChunksAux.eq_def]
    simp only []
    rw [if_pos trivial]
  | cons x xs ih =>
    intro fuel rest hf
    obtain ⟨f, rfl⟩ : ∃ f, fuel = f + 1 := ⟨fuel - 1, by omega⟩
    obtain ⟨tl, htl⟩ := serChunk_head x
    cases xs with
    | nil =>
      show parseChunksAux (f + 1) (serChunk x ++ ']' :: rest) = some ([x], rest)
      rw [htl, List.cons_append, parseChunksAux.eq_def]
      simp only []
      rw [if_neg (by decide)]
      rw [← List.cons_append, ← htl, parseChunk_ser]
      simp only []
      rw [if_neg (by decide), if_pos trivial]
    | cons y ys =>
      show parseChunksAux (f + 1)
          ((serChunk x ++ ',' :: serChunksAux (y :: ys)) ++ ']' :: rest) =
        some (x :: y :: ys, rest)
      rw [List.append_assoc, List.cons_append]
      rw [htl, List.cons_append, parseChunksAux.eq_def]
      simp only []
      rw [if_neg (by decide)]
      rw [← List.cons_append, ← htl, parseChunk_ser]
      simp only []
      rw [if_pos trivial]
      rw [ih f rest (by simpa using Nat.lt_of_succ_le hf)]



theorem serChunk_len (ch : GroundingChunk) : 1 ≤ (serChunk ch).length := by
  obtain ⟨tl, htl⟩ := serChunk_head ch
  rw [htl]
  simp

theorem serChunksAux_len (chs : List GroundingChunk) :
    chs.length ≤ (serChunksAux chs).length := by
  induction chs with
  | nil => simp [serChunksAux]
  | cons x xs ih =>
    cases xs with
    | nil => simpa [serChunksAux] using serChunk_len x
    | cons y ys =>
      show (x :: y :: ys).length ≤ (serChunk x ++ ',' :: serChunksAux (y :: ys)).length
      rw [List.length_append, List.length_cons, List.length_cons]
      have h1 := serChunk_len x
      have h2 : (y :: ys).length ≤ (serChunksAux (y :: ys)).length := ih
      simp only [List.length_cons] at h2 ⊢
      omega

theorem parseResult_ser (r : AnalysisResult) :
    parseResult (serResult r) = some (r, []) := by
  cases r with
  | mk txt chunks =>
    cases chunks with
    | none =>
      show parseResult ("\x7b\"text\":".toList ++ serStr txt ++ [] ++ ['\x7d']) = _
      unfold parseResult
      simp only [List.append_assoc, List.nil_append]
      rw [expectLit_append]
      simp only []
      rw [parseStr_ser]
      simp only []
      rw [if_pos trivial]
    | some chs =>
      show parseResult ("\x7b\"text\":".toList ++ serStr txt ++
          (",\"groundingChunks\":[".toList ++ serChunksAux chs ++ [']']) ++ ['\x7d']) = _
      unfold parseResult
      simp only [List.append_assoc]
      rw [expectLit_append]
      simp only []
      rw [parseStr_ser]
      simp only []
      rw [(by decide : (",\"groundingChunks\":[".toList) =
        ',' :: "\"groundingChunks\":[".toList)]
      rw [List.cons_append]
      simp only []
      rw [if_neg (by decide), if_pos trivial]
      rw [expectLit_append]
      simp only []
      rw [List.singleton_append]
      have hf : chs.length + 1 ≤
          (serChunksAux chs ++ ']' :: ['\x7d']).length + 1 := by
        have hl := serChunksAux_len chs
        simp only [List.length_append, List.length_cons]
        omega
      rw [parseChunksAux_ser chs _ ['\x7d'] hf]
      simp only []
      rw [expectLit_close]

theorem decodeJson_ser (r : AnalysisResult) : decodeJson (serResult r) = some r := by
  unfold decodeJson
  rw [parseResult_ser]



theorem key_round : ∀ n, n < 64 → keyIndex (keyChar n) = some n := by decide

theorem toNat_lt_max (c : Char) : c.toNat < 1114112 := by
  have hv : c.toNat.isValidChar := c.valid
  rcases hv with h | ⟨_, h2⟩
  · omega
  · omega

theorem decompress_compress (l : List Char) : decompress (compress l) = some l := by
  induction l with
  | nil => rfl
  | cons c l' ih =>
    show decompress ((List.map compressChar (c :: l')).flatten) = _
    rw [List.map_cons, List.flatten_cons]
    rw [show compressChar c = [keyChar (c.toNat / 262144 % 64),
      keyChar (c.toNat / 4096 % 64), keyChar (c.toNat / 64 % 64),
      keyChar (c.toNat % 64)] from rfl]
    simp only [List.cons_append, List.nil_append]
    rw [decompress.eq_def]
    simp only []
    rw [key_round _ (by omega), key_round _ (by omega), key_round _ (by omega),
      key_round _ (by omega)]
    simp only []
    have hn : ((c.toNat / 262144 % 64 * 64 + c.toNat / 4096 % 64) * 64 +
        c.toNat / 64 % 64) * 64 + c.toNat % 64 = c.toNat := by
      have hlt := toNat_lt_max c
      omega
    simp only [hn]
    have hv : c.toNat.isValidChar := c.valid
    rw [dif_pos hv]
    rw [show (List.map compressChar l').flatten = compress l' from rfl]
    rw [ih]
    simp only []
    rw [ofNatAux_toNat]



/-- Claim C8: decoding the compressed URL-safe share encoding of an
AnalysisResult returns a value equal to the original:
decode(encode(x)) = some x at the share-link boundary.  The JSON
serialization models JSON.stringify/JSON.parse at the AnalysisResult shape;
the compressor is modelled from the spec (see keyStr above), as the
third-party lz-string implementation is not part of the repository. -/
theorem share_round_trip (r : AnalysisResult) :
    decodeShare (encodeShare r) = some r := by
  unfold encodeShare decodeShare
  rw [decompress_compress]
  simp only []
  exact decodeJson_ser r

end DermaCheck
